import Mathlib

/-!
Verification of the frame-synchronized input dispatch pipeline.

The repository contains the pipeline's unit tests
(src/shell/common/input_events_unittests.cc) but not the production
Dispatcher / Sample Queue / Latch themselves, so the dispatcher is modelled
from the design spec (sections 3, 4.1, 4.2, 4.3), while the test harness
(the simulation driver loop, the frame recorder callbacks, the assumption
checker, and the three concrete generators) is embedded from the source of
input_events_unittests.cc.

Time is the test's UnitlessTime (a C++ int); all concrete values occurring
in the tests are non-negative, so run-level timestamps are Nat.  The
assumption checker subtracts base_latency, so it works on Int, with C++
integer division (truncation toward zero) rendered as Int.tdiv.
-/

namespace Engine

/-- An input sample (spec section 3): monotonically increasing arrival
timestamp, plus a sequence index standing in for the opaque payload, which
is forwarded unchanged. -/
structure InputSample where
  ts : Nat
  seq : Nat
deriving DecidableEq

/-- Modelled from the spec: section 4.3 dispatcher state, a Sample Queue
(ordered holding area, section 4.1) plus the single-bit Redraw Request
Latch (section 4.2; latch = true is PENDING, false is CLEAR). -/
structure DispatcherState where
  queue : List InputSample
  latch : Bool
deriving DecidableEq

/-- Modelled from the spec: initial dispatcher state, empty queue and the
latch in its initial CLEAR state (section 4.2). -/
def dispatcher0 : DispatcherState := ⟨[], false⟩

/-- Modelled from the spec: section 4.1 DrainUpTo removes and returns every
queued sample whose arrival timestamp is at most cutoff, preserving
relative order, leaving later samples queued. -/
def drainUpTo (q : List InputSample) (cutoff : Nat) :
    List InputSample × List InputSample :=
  (q.filter (fun s => decide (s.ts ≤ cutoff)),
   q.filter (fun s => !(decide (s.ts ≤ cutoff))))

/-- Modelled from the spec: section 4.3 OnSample pushes the sample into the
Sample Queue and latches a redraw request (CLEAR transitions to PENDING;
PENDING stays PENDING).  It never invokes the consumer. -/
def onSample (st : DispatcherState) (s : InputSample) : DispatcherState :=
  { queue := st.queue ++ [s], latch := true }

/-- A call across the Consumer Adapter boundary (spec section 4.4): either
one sample delivery (identified by its sequence index) or a begin-frame
signal. -/
inductive ConsumerCall where
  | deliverSample (seq : Nat)
  | beginFrame
deriving DecidableEq

/-- Modelled from the spec: section 4.3 OnTick.  Drain the queue up to
tick_time obtaining batch B; if B is empty return with no consumer calls
and no state change; otherwise deliver every sample of B in order, then
signal begin-frame exactly once, and clear the latch. -/
def onTick (st : DispatcherState) (t : Nat) :
    DispatcherState × List ConsumerCall :=
  let drained := drainUpTo st.queue t
  if drained.1 = [] then (st, [])
  else ({ queue := drained.2, latch := false },
        drained.1.map (fun s => ConsumerCall.deliverSample s.seq)
          ++ [ConsumerCall.beginFrame])

/-!
The simulation driver, embedded from the source
(TestSimulatedInputEvents in src/shell/common/input_events_unittests.cc):

  for (int i = 0, j = 0; i < num_events; j += 1) {
    double t = j * frame_time;
    while (i < num_events && delivery_time(i) <= t) { Dispatch...; i += 1; }
    PumpOneFrame(...);
  }

At tick index j every not-yet-dispatched event whose delivery time is at
most j * frame_time is handed to the dispatcher (OnSample) in index order,
then one frame is pumped (OnTick at time j * frame_time).  The loop runs
while undelivered events remain, so the run performs exactly J ticks where
J is the least tick count after which no event is pending.
-/

/-- One iteration of the source driver loop at tick index j: dispatch the
due prefix of the pending events, then pump one frame. -/
def simStep (P : Nat) (st : List InputSample × DispatcherState) (j : Nat) :
    (List InputSample × DispatcherState) × List ConsumerCall :=
  let t := j * P
  let arriving := st.1.takeWhile (fun s => decide (s.ts ≤ t))
  let rest := st.1.dropWhile (fun s => decide (s.ts ≤ t))
  let stepped := onTick (arriving.foldl onSample st.2) t
  ((rest, stepped.1), stepped.2)

/-- State and accumulated consumer-call trace of the source driver loop
after the first j ticks (ticks 0, 1, ..., j-1). -/
def simAll (P : Nat) (events : List InputSample) :
    Nat → (List InputSample × DispatcherState) × List ConsumerCall
  | 0 => ((events, dispatcher0), [])
  | j + 1 =>
    let prev := simAll P events j
    let stepped := simStep P prev.1 j
    (stepped.1, prev.2 ++ stepped.2)

/-- Events not yet handed to the dispatcher when tick j starts. -/
def pendingAfter (P : Nat) (events : List InputSample) (j : Nat) :
    List InputSample :=
  (simAll P events j).1.1

/-- Dispatcher state when tick j starts. -/
def dispatcherAfter (P : Nat) (events : List InputSample) (j : Nat) :
    DispatcherState :=
  (simAll P events j).1.2

/-- Consumer calls emitted during tick j of the run. -/
def callsAt (P : Nat) (events : List InputSample) (j : Nat) :
    List ConsumerCall :=
  (simStep P (simAll P events j).1 j).2

/-- Full consumer-call trace of a run of J ticks. -/
def simTrace (P : Nat) (events : List InputSample) (J : Nat) :
    List ConsumerCall :=
  (simAll P events J).2

/-- Events dispatched at tick j of the run (the due prefix of the pending
list); by the queue-emptiness invariant these are exactly the batch the
dispatcher drains and delivers at that tick. -/
def arrivalsAt (P : Nat) (events : List InputSample) (j : Nat) :
    List InputSample :=
  (pendingAfter P events j).takeWhile (fun s => decide (s.ts ≤ j * P))

/-- Projection of a consumer call to a delivered sequence index. -/
def deliverSeq? : ConsumerCall → Option Nat
  | ConsumerCall.deliverSample n => some n
  | ConsumerCall.beginFrame => none

/-- Sequence indices delivered during tick j, in delivery order. -/
def deliveredSeqsAt (P : Nat) (events : List InputSample) (j : Nat) :
    List Nat :=
  (callsAt P events j).filterMap deliverSeq?

/-- Sequence indices delivered across a whole run of J ticks, in delivery
order. -/
def deliveredSeqs (P : Nat) (events : List InputSample) (J : Nat) :
    List Nat :=
  (simTrace P events J).filterMap deliverSeq?

/-- First tick index whose time is at least a, that is the least j with
a ≤ j * P (the ceiling of a / P), for a positive period P. -/
def firstTick (P a : Nat) : Nat := (a + P - 1) / P

/-!
The frame recorder, embedded from the source (the nativeOnPointerDataPacket
and nativeOnBeginFrame callbacks of TestSimulatedInputEvents):

  events_consumed += 1;
  if (will_draw_new_frame) {
    frame_drawn += 1;
    will_draw_new_frame = false;
    events_consumed_at_frame.push_back(events_consumed);
  } else {
    events_consumed_at_frame.back() = events_consumed;
  }

and nativeOnBeginFrame sets will_draw_new_frame = true.
-/

/-- State of the four recording variables of TestSimulatedInputEvents. -/
structure RecorderState where
  events_consumed_at_frame : List Nat
  will_draw_new_frame : Bool
  events_consumed : Nat
  frame_drawn : Nat
deriving DecidableEq

/-- Recorder state at shell construction: cleared vector, a first delivery
will draw a new frame, nothing consumed, no frame drawn. -/
def recorder0 : RecorderState := ⟨[], true, 0, 0⟩

/-- From source: effect of one consumer call on the recording variables.
A delivery bumps events_consumed and either opens a new frame record or
overwrites the last one; a begin-frame arms the next frame record. -/
def recordCall (r : RecorderState) (c : ConsumerCall) : RecorderState :=
  match c with
  | ConsumerCall.deliverSample _ =>
    let ec := r.events_consumed + 1
    if r.will_draw_new_frame then
      { events_consumed_at_frame := r.events_consumed_at_frame ++ [ec],
        will_draw_new_frame := false,
        events_consumed := ec,
        frame_drawn := r.frame_drawn + 1 }
    else
      { r with
        events_consumed := ec,
        events_consumed_at_frame :=
          r.events_consumed_at_frame.dropLast ++ [ec] }
  | ConsumerCall.beginFrame => { r with will_draw_new_frame := true }

/-- Recorder state after folding a consumer-call trace from the initial
state. -/
def recordTrace (calls : List ConsumerCall) : RecorderState :=
  calls.foldl recordCall recorder0

/-- Number of frames drawn over a run of J ticks, as the tests measure it:
the length of events_consumed_at_frame. -/
def framesProduced (P : Nat) (events : List InputSample) (J : Nat) : Nat :=
  (recordTrace (simTrace P events J)).events_consumed_at_frame.length

/-!
The three concrete generators, embedded from the source.  All double
arithmetic they perform is exact at the values used, so the produced ints
are written out directly.
-/

/-- From source: the double_sampling generator of
DelayAtMostOneEventForFasterThanVSyncInputEvents, namely
static_cast of (i * 0.5 * frame_time + base_latency) to int with
frame_time = 10 and base_latency = 2; the double arithmetic is exact and
yields 5 * i + 2. -/
def double_sampling (i : Nat) : Nat := 5 * i + 2

/-- Event list of DelayAtMostOneEventForFasterThanVSyncInputEvents:
n = 40 events, the i-th delivered at double_sampling i. -/
def doubleSamplingEvents : List InputSample :=
  (List.range 40).map (fun i => ⟨double_sampling i, i⟩)

/-- From source: the extreme generator of
MissAtMostOneFrameForIrregularInputEvents, namely static_cast of
(i * frame_time + base_latency + (0.1 or 0.9) * frame_time) to int with
frame_time = 10 and base_latency = 5; the double arithmetic is exact and
yields 10 * i + 6 for even i and 10 * i + 14 for odd i. -/
def extreme (i : Nat) : Nat := 10 * i + 5 + (if i % 2 = 0 then 1 else 9)

/-- Event list of MissAtMostOneFrameForIrregularInputEvents: n = 40
events, the i-th delivered at extreme i. -/
def extremeEvents : List InputSample :=
  (List.range 40).map (fun i => ⟨extreme i, i⟩)

/-- From source: the 47 recorded iPhone Xs delivery times of
HandlesActualIphoneXsInputEvents, each multiplied by frame_time = 10000
and truncated to int by static_cast (exact IEEE double results). -/
def iphoneXsScaledTimes : List Nat :=
  [1500, 10773, 21738, 30579, 40890, 50952, 61251, 71253, 81259, 93724,
   101339, 111612, 122269, 131443, 144403, 150916, 161386, 171264, 181592,
   193713, 200337, 210217, 220700, 233255, 241196, 250842, 260778, 270365,
   280350, 290814, 300660, 310893, 320861, 334618, 341469, 350513, 361360,
   371618, 381444, 392011, 404339, 411552, 421021, 430426, 440701, 450886,
   460914]

/-- Event list of HandlesActualIphoneXsInputEvents for one base latency:
the i-th event is delivered at base + iphoneXsScaledTimes[i]. -/
def iphoneEvents (base : Nat) : List InputSample :=
  iphoneXsScaledTimes.enum.map (fun p => ⟨base + p.2, p.1⟩)

/-- From source: the base_latency values of the sweep
for (double b = 0; b < 1; b += 0.1) with base_latency = static_cast of
(b * frame_time) to int, frame_time = 10000.  Accumulating the double 0.1
ten times gives a value just below 1, so the loop body runs 11 times, and
the accumulated rounding shows up in the 7999 and 9999 entries. -/
def baseLatencySweep : List Nat :=
  [0, 1000, 2000, 3000, 4000, 5000, 6000, 7000, 7999, 9000, 9999]

/-- Tick count of the source driver loop on the iPhone Xs events for a
given base latency: the loop runs through the first tick that covers the
last event (scaled time 460914). -/
def iphoneRunLength (base : Nat) : Nat := firstTick 10000 (base + 460914) + 1

/-- Predicate for the ingress contract of spec section 6: sample arrival
timestamps are monotonically non-decreasing across OnSample calls. -/
def SortedTs (l : List InputSample) : Prop :=
  l.Pairwise (fun a b => a.ts ≤ b.ts)

/-- Samples delivered across a run of J ticks, in delivery order (the
concatenation of the per-tick batches). -/
def deliveredSamples (P : Nat) (events : List InputSample) (J : Nat) :
    List InputSample :=
  ((List.range J).map (arrivalsAt P events)).flatten

instance (l : List InputSample) : Decidable (SortedTs l) := by
  unfold SortedTs
  infer_instance

/-- Modelled from the spec: the taxonomy of caller contract violations of
section 7 that the production dispatcher (absent from the sources) must
surface as hard failures: non-monotonic tick times or sample
timestamps. -/
inductive ContractViolation where
  | nonMonotonicTick
  | nonMonotonicSample
deriving DecidableEq

/-- Modelled from the spec: dispatcher state extended with the
collaborator-contract bookkeeping needed to detect violations (the
previous tick time and the previous sample timestamp). -/
structure CheckedDispatcher where
  core : DispatcherState
  lastTickTime : Option Nat
  lastSampleTime : Option Nat
deriving DecidableEq

/-- Modelled from the spec: sections 6 and 7 require tick_time to be
strictly increasing across OnTick calls; a violation is surfaced as a
hard logic error (not a recoverable runtime condition), otherwise the
tick behaves exactly as section 4.3 OnTick. -/
def onTickChecked (cs : CheckedDispatcher) (t : Nat) :
    Except ContractViolation (CheckedDispatcher × List ConsumerCall) :=
  match cs.lastTickTime with
  | some t0 =>
    if t ≤ t0 then Except.error ContractViolation.nonMonotonicTick
    else
      let r := onTick cs.core t
      Except.ok ({ cs with core := r.1, lastTickTime := some t }, r.2)
  | none =>
    let r := onTick cs.core t
    Except.ok ({ cs with core := r.1, lastTickTime := some t }, r.2)

/-- Modelled from the spec: section 6 requires sample timestamps to be
monotonically non-decreasing (ties permitted); a decrease is surfaced as
a hard logic error, otherwise the sample is enqueued exactly as section
4.3 OnSample. -/
def onSampleChecked (cs : CheckedDispatcher) (s : InputSample) :
    Except ContractViolation CheckedDispatcher :=
  match cs.lastSampleTime with
  | some a0 =>
    if s.ts < a0 then Except.error ContractViolation.nonMonotonicSample
    else Except.ok { cs with core := onSample cs.core s,
                             lastSampleTime := some s.ts }
  | none => Except.ok { cs with core := onSample cs.core s,
                                lastSampleTime := some s.ts }

/-- Invariant of the recording variables: the recorded per-frame counts
are strictly increasing and bounded by the running consumed counter. -/
def RecInv (r : RecorderState) : Prop :=
  r.events_consumed_at_frame.Pairwise (· < ·) ∧
  ∀ x ∈ r.events_consumed_at_frame, x ≤ r.events_consumed

/-!
The assumption checker, embedded from the source (the first loop of
TestSimulatedInputEvents):

  int continuous_frame_count = 0;
  for (int i = 0; i < num_events; i += 1) {
    int j = static_cast of ((delivery_time(i) - base_latency) / frame_time);
    if (j == continuous_frame_count) { continuous_frame_count += 1; }
    double random_latency = delivery_time(i) - j * frame_time - base_latency;
    ASSERT_GE(random_latency, 0);
    ASSERT_LT(random_latency, frame_time);
    ASSERT_LT(j, continuous_frame_count);
  }

All operands are C++ ints, so the division truncates toward zero
(Int.tdiv); the double random_latency holds an exact integer value.
-/

/-- From source: the ideal frame index of an event, the frame it would
fall in were there no latency: (delivery_time - base_latency) /
frame_time in C++ int arithmetic (truncation toward zero). -/
def idealFrameIdx (base F a : Int) : Int := (a - base).tdiv F

/-- From source: random_latency, the part of the event's latency beyond
base_latency relative to its computed ideal frame. -/
def randomLatency (base F a : Int) : Int :=
  a - idealFrameIdx base F a * F - base

/-- From source: the assumption-checking loop of TestSimulatedInputEvents
as a pure function: the conjunction of the three assertions over all
events, threading continuous_frame_count (which bumps whenever an event's
ideal frame index equals it). -/
def checkLoop (base F : Int) : Int → List Int → Bool
  | _, [] => true
  | cfc, a :: rest =>
    let j := idealFrameIdx base F a
    let cfc1 := if j = cfc then cfc + 1 else cfc
    (decide (0 ≤ randomLatency base F a)
        && decide (randomLatency base F a < F) && decide (j < cfc1))
      && checkLoop base F cfc1 rest

/-- Final value of continuous_frame_count after the checking loop. -/
def finalCfc (base F : Int) : Int → List Int → Int
  | cfc, [] => cfc
  | cfc, a :: rest =>
    finalCfc base F (if idealFrameIdx base F a = cfc then cfc + 1 else cfc)
      rest

/-- From source: whether a run of TestSimulatedInputEvents passes its
latency-model precondition checks (no assertion fires). -/
def assumptionsOk (base F : Int) (ds : List Int) : Bool :=
  checkLoop base F 0 ds

/-! Helper lemmas about the dispatcher and the driver loop. -/

theorem foldl_onSample_queue (l : List InputSample) (st : DispatcherState) :
    (l.foldl onSample st).queue = st.queue ++ l := by
  induction l generalizing st with
  | nil => simp
  | cons a l ih => simp [onSample, ih]

theorem takeWhile_all_le (c : Nat) (l : List InputSample) :
    ∀ s ∈ l.takeWhile (fun s => decide (s.ts ≤ c)), s.ts ≤ c := by
  intro s hs
  simpa using List.mem_takeWhile_imp hs

theorem onTick_full_drain (st : DispatcherState) (t : Nat)
    (h : ∀ s ∈ st.queue, s.ts ≤ t) :
    (onTick st t).1.queue = [] ∧
    (onTick st t).2 = (if st.queue = [] then []
      else st.queue.map (fun s => ConsumerCall.deliverSample s.seq)
        ++ [ConsumerCall.beginFrame]) := by
  have h1 : st.queue.filter (fun s => decide (s.ts ≤ t)) = st.queue :=
    List.filter_eq_self.mpr (fun s hs => by simp [h s hs])
  have h2 : st.queue.filter (fun s => !(decide (s.ts ≤ t))) = [] :=
    List.filter_eq_nil_iff.mpr (fun s hs => by simp [h s hs])
  unfold onTick drainUpTo
  simp only [h1, h2]
  by_cases hq : st.queue = []
  · simp [hq]
  · simp [hq]

theorem dispatcherAfter_succ (P : Nat) (events : List InputSample)
    (j : Nat) :
    dispatcherAfter P events (j + 1) =
      (onTick ((arrivalsAt P events j).foldl onSample
        (dispatcherAfter P events j)) (j * P)).1 := rfl

theorem callsAt_eq_onTick (P : Nat) (events : List InputSample) (j : Nat) :
    callsAt P events j =
      (onTick ((arrivalsAt P events j).foldl onSample
        (dispatcherAfter P events j)) (j * P)).2 := rfl

theorem pendingAfter_succ (P : Nat) (events : List InputSample) (j : Nat) :
    pendingAfter P events (j + 1) =
      (pendingAfter P events j).dropWhile (fun s => decide (s.ts ≤ j * P)) :=
  rfl

theorem simTrace_succ (P : Nat) (events : List InputSample) (J : Nat) :
    simTrace P events (J + 1) = simTrace P events J ++ callsAt P events J :=
  rfl

theorem queue_after (P : Nat) (events : List InputSample) (j : Nat) :
    (dispatcherAfter P events j).queue = [] := by
  induction j with
  | zero => rfl
  | succ j ih =>
    rw [dispatcherAfter_succ]
    have hq : ((arrivalsAt P events j).foldl onSample
        (dispatcherAfter P events j)).queue = arrivalsAt P events j := by
      rw [foldl_onSample_queue, ih, List.nil_append]
    refine (onTick_full_drain _ _ ?_).1
    rw [hq]
    exact takeWhile_all_le (j * P) (pendingAfter P events j)

theorem callsAt_eq (P : Nat) (events : List InputSample) (j : Nat) :
    callsAt P events j =
      if arrivalsAt P events j = [] then []
      else (arrivalsAt P events j).map
          (fun s => ConsumerCall.deliverSample s.seq)
        ++ [ConsumerCall.beginFrame] := by
  have hq : ((arrivalsAt P events j).foldl onSample
      (dispatcherAfter P events j)).queue = arrivalsAt P events j := by
    rw [foldl_onSample_queue, queue_after, List.nil_append]
  rw [callsAt_eq_onTick]
  have hmem : ∀ s ∈ ((arrivalsAt P events j).foldl onSample
      (dispatcherAfter P events j)).queue, s.ts ≤ j * P := by
    rw [hq]
    exact takeWhile_all_le (j * P) (pendingAfter P events j)
  rw [(onTick_full_drain _ _ hmem).2, hq]

theorem sorted_takeWhile_le (c : Nat) :
    ∀ l : List InputSample, SortedTs l →
      l.takeWhile (fun s => decide (s.ts ≤ c))
        = l.filter (fun s => decide (s.ts ≤ c)) := by
  intro l
  induction l with
  | nil => intro _; rfl
  | cons a l ih =>
    intro hs
    rw [SortedTs, List.pairwise_cons] at hs
    by_cases h : a.ts ≤ c
    · rw [List.takeWhile_cons_of_pos (by simp [h]),
        List.filter_cons_of_pos (by simp [h]), ih hs.2]
    · rw [List.takeWhile_cons_of_neg (by simp [h]),
        List.filter_cons_of_neg (by simp [h])]
      symm
      refine List.filter_eq_nil_iff.mpr ?_
      intro s hsl
      simp only [decide_eq_true_eq]
      exact fun hc => h (le_trans (hs.1 s hsl) hc)

theorem sorted_dropWhile_le (c : Nat) :
    ∀ l : List InputSample, SortedTs l →
      l.dropWhile (fun s => decide (s.ts ≤ c))
        = l.filter (fun s => !(decide (s.ts ≤ c))) := by
  intro l
  induction l with
  | nil => intro _; rfl
  | cons a l ih =>
    intro hs
    rw [SortedTs, List.pairwise_cons] at hs
    by_cases h : a.ts ≤ c
    · rw [List.dropWhile_cons_of_pos (by simp [h]),
        List.filter_cons_of_neg (by simp [h]), ih hs.2]
    · rw [List.dropWhile_cons_of_neg (by simp [h]),
        List.filter_cons_of_pos (by simp [h])]
      congr 1
      symm
      refine List.filter_eq_self.mpr ?_
      intro s hsl
      simp only [Bool.not_eq_true', decide_eq_false_iff_not]
      exact fun hc => h (le_trans (hs.1 s hsl) hc)

theorem firstTick_le_iff (P a j : Nat) (hP : 0 < P) :
    firstTick P a ≤ j ↔ a ≤ j * P := by
  unfold firstTick
  rw [Nat.div_le_iff_le_mul_add_pred hP]
  have hexp : P * j = j * P := Nat.mul_comm P j
  rw [hexp]
  generalize j * P = m
  omega

theorem pendingAfter_eq_filter (P : Nat) (events : List InputSample)
    (hP : 0 < P) (hs : SortedTs events) (j : Nat) :
    pendingAfter P events j
      = events.filter (fun s => decide (j ≤ firstTick P s.ts)) := by
  induction j with
  | zero =>
    rw [show pendingAfter P events 0 = events from rfl]
    symm
    refine List.filter_eq_self.mpr ?_
    intro s _
    simp
  | succ j ih =>
    rw [pendingAfter_succ, ih,
      sorted_dropWhile_le _ _ (List.Pairwise.filter _ hs),
      List.filter_filter]
    refine List.filter_congr ?_
    intro s _
    have hiff := firstTick_le_iff P s.ts j hP
    by_cases h : s.ts ≤ j * P
    · have h1 : firstTick P s.ts ≤ j := hiff.mpr h
      have h2 : ¬ (j + 1 ≤ firstTick P s.ts) := by omega
      simp [h, h2]
    · have h1 : ¬ firstTick P s.ts ≤ j := fun hc => h (hiff.mp hc)
      have h2 : j + 1 ≤ firstTick P s.ts := by omega
      have h3 : j ≤ firstTick P s.ts := by omega
      simp [h, h2, h3]

theorem arrivalsAt_eq_filter (P : Nat) (events : List InputSample)
    (hP : 0 < P) (hs : SortedTs events) (j : Nat) :
    arrivalsAt P events j
      = events.filter (fun s => decide (firstTick P s.ts = j)) := by
  rw [show arrivalsAt P events j = (pendingAfter P events j).takeWhile
      (fun s => decide (s.ts ≤ j * P)) from rfl,
    pendingAfter_eq_filter P events hP hs j,
    sorted_takeWhile_le _ _ (List.Pairwise.filter _ hs),
    List.filter_filter]
  refine List.filter_congr ?_
  intro s _
  have hiff := firstTick_le_iff P s.ts j hP
  by_cases h : s.ts ≤ j * P
  · have h1 : firstTick P s.ts ≤ j := hiff.mpr h
    by_cases h2 : j ≤ firstTick P s.ts
    · have h3 : firstTick P s.ts = j := le_antisymm h1 h2
      simp [h, h2, h3]
    · have h3 : ¬ firstTick P s.ts = j := by omega
      simp [h, h2, h3]
  · have h1 : ¬ firstTick P s.ts ≤ j := fun hc => h (hiff.mp hc)
    have h3 : ¬ firstTick P s.ts = j := by omega
    simp [h, h3]

theorem deliveredSamples_append_pending (P : Nat)
    (events : List InputSample) : ∀ J : Nat,
    deliveredSamples P events J ++ pendingAfter P events J = events := by
  intro J
  induction J with
  | zero => rfl
  | succ J ih =>
    rw [show deliveredSamples P events (J + 1)
        = deliveredSamples P events J ++ arrivalsAt P events J by
      unfold deliveredSamples
      rw [List.range_succ, List.map_append, List.flatten_append]
      simp]
    rw [pendingAfter_succ, List.append_assoc,
      show arrivalsAt P events J ++ (pendingAfter P events J).dropWhile
          (fun s => decide (s.ts ≤ J * P)) = pendingAfter P events J from
        List.takeWhile_append_dropWhile .., ih]

theorem deliveredSeqsAt_eq (P : Nat) (events : List InputSample) (j : Nat) :
    deliveredSeqsAt P events j = (arrivalsAt P events j).map InputSample.seq := by
  unfold deliveredSeqsAt
  rw [callsAt_eq]
  by_cases h : arrivalsAt P events j = []
  · simp [h]
  · rw [if_neg h, List.filterMap_append, List.filterMap_map]
    simp only [Function.comp_def, deliverSeq?]
    rw [show (fun x : InputSample => some x.seq)
        = some ∘ InputSample.seq from rfl, List.filterMap_eq_map]
    simp [deliverSeq?]

theorem deliveredSeqs_eq_map (P : Nat) (events : List InputSample) :
    ∀ J : Nat, deliveredSeqs P events J
      = (deliveredSamples P events J).map InputSample.seq := by
  intro J
  induction J with
  | zero => rfl
  | succ J ih =>
    rw [show deliveredSeqs P events (J + 1)
        = deliveredSeqs P events J ++ deliveredSeqsAt P events J from by
      unfold deliveredSeqs deliveredSeqsAt
      rw [simTrace_succ, List.filterMap_append]]
    rw [show deliveredSamples P events (J + 1)
        = deliveredSamples P events J ++ arrivalsAt P events J by
      unfold deliveredSamples
      rw [List.range_succ, List.map_append, List.flatten_append]
      simp]
    rw [List.map_append, ih, deliveredSeqsAt_eq]

/-! Helper lemmas about the frame recorder. -/

theorem recordCall_inv (r : RecorderState) (c : ConsumerCall)
    (h : RecInv r) : RecInv (recordCall r c) := by
  obtain ⟨hp, hb⟩ := h
  cases c with
  | beginFrame => exact ⟨hp, hb⟩
  | deliverSample n =>
    unfold recordCall
    by_cases hw : r.will_draw_new_frame
    · simp only [hw, if_true]
      constructor
      · rw [List.pairwise_append]
        refine ⟨hp, List.pairwise_singleton _ _, ?_⟩
        intro x hx b hbm
        rw [List.mem_singleton] at hbm
        subst hbm
        exact Nat.lt_succ_of_le (hb x hx)
      · intro x hx
        rcases List.mem_append.mp hx with hx1 | hx2
        · exact Nat.le_succ_of_le (hb x hx1)
        · rw [List.mem_singleton] at hx2
          exact le_of_eq hx2
    · simp only [hw, if_false, Bool.false_eq_true]
      have hsub := List.dropLast_sublist r.events_consumed_at_frame
      constructor
      · rw [List.pairwise_append]
        refine ⟨List.Pairwise.sublist hsub hp, List.pairwise_singleton _ _, ?_⟩
        intro x hx b hbm
        rw [List.mem_singleton] at hbm
        subst hbm
        exact Nat.lt_succ_of_le (hb x (hsub.subset hx))
      · intro x hx
        rcases List.mem_append.mp hx with hx1 | hx2
        · exact Nat.le_succ_of_le (hb x (hsub.subset hx1))
        · rw [List.mem_singleton] at hx2
          exact le_of_eq hx2

theorem recordTrace_inv (calls : List ConsumerCall) :
    RecInv (recordTrace calls) := by
  unfold recordTrace
  suffices h : ∀ (cs : List ConsumerCall) (r : RecorderState),
      RecInv r → RecInv (cs.foldl recordCall r) by
    refine h calls recorder0 ⟨List.Pairwise.nil, ?_⟩
    intro x hx
    simp [recorder0] at hx
  intro cs
  induction cs with
  | nil => intro r h; exact h
  | cons c cs ih => intro r h; exact ih _ (recordCall_inv r c h)

/-! Helper lemma about the assumption checker. -/

theorem checkLoop_sound (base F : Int) :
    ∀ (ds : List Int) (cfc : Int), checkLoop base F cfc ds = true →
      (∀ a ∈ ds, 0 ≤ randomLatency base F a ∧ randomLatency base F a < F) ∧
      cfc ≤ finalCfc base F cfc ds ∧
      (∀ a ∈ ds, idealFrameIdx base F a < finalCfc base F cfc ds) ∧
      (∀ c : Int, cfc ≤ c → c < finalCfc base F cfc ds →
        c ∈ ds.map (idealFrameIdx base F)) := by
  intro ds
  induction ds with
  | nil =>
    intro cfc _
    refine ⟨by simp, le_refl _, by simp, ?_⟩
    intro c hc1 hc2
    unfold finalCfc at hc2
    omega
  | cons a rest ih =>
    intro cfc h
    unfold checkLoop at h
    rw [Bool.and_eq_true, Bool.and_eq_true, Bool.and_eq_true] at h
    obtain ⟨⟨⟨h1, h2⟩, h3⟩, hrest⟩ := h
    rw [decide_eq_true_eq] at h1 h2 h3
    obtain ⟨ihrl, ihle, ihlt, ihcov⟩ := ih _ hrest
    have hfin : finalCfc base F cfc (a :: rest)
        = finalCfc base F
            (if idealFrameIdx base F a = cfc then cfc + 1 else cfc) rest := rfl
    have hstep : cfc ≤ (if idealFrameIdx base F a = cfc then cfc + 1 else cfc) := by
      split <;> omega
    refine ⟨?_, ?_, ?_, ?_⟩
    · intro x hx
      rcases List.mem_cons.mp hx with hx1 | hx2
      · subst hx1; exact ⟨h1, h2⟩
      · exact ihrl x hx2
    · rw [hfin]; exact le_trans hstep ihle
    · intro x hx
      rw [hfin]
      rcases List.mem_cons.mp hx with hx1 | hx2
      · subst hx1; exact lt_of_lt_of_le h3 ihle
      · exact ihlt x hx2
    · intro c hc1 hc2
      rw [hfin] at hc2
      rw [List.map_cons]
      by_cases hcase : (if idealFrameIdx base F a = cfc then cfc + 1 else cfc) ≤ c
      · exact List.mem_cons_of_mem _ (ihcov c hcase hc2)
      · have hj : idealFrameIdx base F a = cfc := by
          by_contra hj
          rw [if_neg hj] at hcase
          exact hcase hc1
        rw [if_pos hj] at hcase
        have hceq : c = cfc := by omega
        rw [hceq, ← hj]
        exact List.mem_cons_self _ _

/-! Claim theorems. -/

/-- C1 (Coalescing): at every tick of a run (arrivals non-decreasing,
positive period) the consumer sees at most one begin-frame signal, and
whenever at least one sample falls in tick j's interval (j is its first
covering tick), the tick emits exactly the deliveries of those samples in
order followed by a single begin-frame call bracketing them all — never
one begin-frame per sample.  The dispatcher is modelled from the spec
(section 4.3). -/
theorem c1_coalescing (P : Nat) (events : List InputSample) (j : Nat)
    (hP : 0 < P) (hs : SortedTs events) :
    (callsAt P events j).count ConsumerCall.beginFrame ≤ 1 ∧
    (events.filter (fun s => decide (firstTick P s.ts = j)) ≠ [] →
      callsAt P events j =
        (events.filter (fun s => decide (firstTick P s.ts = j))).map
            (fun s => ConsumerCall.deliverSample s.seq)
          ++ [ConsumerCall.beginFrame]) := by
  have harr := arrivalsAt_eq_filter P events hP hs j
  rw [callsAt_eq, harr]
  by_cases h : events.filter (fun s => decide (firstTick P s.ts = j)) = []
  · rw [if_pos h]
    exact ⟨by simp, fun hc => absurd h hc⟩
  · rw [if_neg h]
    refine ⟨?_, fun _ => rfl⟩
    have h0 : ConsumerCall.beginFrame ∉
        (events.filter (fun s => decide (firstTick P s.ts = j))).map
          (fun s => ConsumerCall.deliverSample s.seq) := by
      intro hmem
      obtain ⟨s, _, heq⟩ := List.mem_map.mp hmem
      exact ConsumerCall.noConfusion heq
    rw [List.count_append, List.count_eq_zero.mpr h0]
    simp

/-- Witness for C1: two samples arriving strictly inside the first tick
interval are delivered together under a single trailing begin-frame. -/
theorem c1_coalescing_witness :
    callsAt 10 [⟨2, 0⟩, ⟨7, 1⟩] 1 =
      [ConsumerCall.deliverSample 0, ConsumerCall.deliverSample 1,
       ConsumerCall.beginFrame] :=
  ((c1_coalescing 10 [⟨2, 0⟩, ⟨7, 1⟩] 1 (by decide) (by decide)).2
    (by decide)).trans (by decide)

/-- C2 (At-most-one-frame latency): firstTick P a is the first tick index
whose time is at least the arrival a (it covers a, and it is minimal among
covering ticks), and at every tick j of a run (arrivals non-decreasing,
positive period, ticks exactly one period apart as in the source driver)
the delivered samples are exactly those whose first covering tick is j —
no sample is delivered before its arrival, and none is delayed past the
next tick after its arrival.  The dispatcher is modelled from the spec
(section 4.3). -/
theorem c2_latency (P : Nat) (events : List InputSample) (a j : Nat)
    (hP : 0 < P) (hs : SortedTs events) :
    (a ≤ firstTick P a * P ∧ (∀ k : Nat, a ≤ k * P → firstTick P a ≤ k)) ∧
    deliveredSeqsAt P events j =
      (events.filter (fun s => decide (firstTick P s.ts = j))).map
        InputSample.seq := by
  refine ⟨⟨?_, ?_⟩, ?_⟩
  · exact (firstTick_le_iff P a (firstTick P a) hP).mp (le_refl _)
  · intro k hk
    exact (firstTick_le_iff P a k hP).mpr hk
  · rw [deliveredSeqsAt_eq, arrivalsAt_eq_filter P events hP hs j]

/-- Witness for C2: in a three-sample run with period 10, tick 1 delivers
exactly the two samples that arrived in its interval. -/
theorem c2_latency_witness :
    deliveredSeqsAt 10 [⟨2, 0⟩, ⟨7, 1⟩, ⟨12, 2⟩] 1 = [0, 1] :=
  ((c2_latency 10 [⟨2, 0⟩, ⟨7, 1⟩, ⟨12, 2⟩] 5 1 (by decide)
    (by decide)).2).trans (by decide)

/-- C3 (Ordering and exactly-once delivery): over a complete run (all
events dispatched after J ticks), the concatenation of the delivered
batches equals the original event list — every sample is delivered
exactly once, none is dropped, and delivery order is arrival order, so
for i < k sample i is delivered no later than sample k and (under the
non-decreasing ingress contract) timestamps are delivered in
non-decreasing order.  The dispatcher is modelled from the spec
(section 4.3). -/
theorem c3_exactly_once (P : Nat) (events : List InputSample) (J : Nat)
    (hJ : pendingAfter P events J = []) :
    deliveredSamples P events J = events ∧
    deliveredSeqs P events J = events.map InputSample.seq := by
  have h1 : deliveredSamples P events J = events := by
    have h := deliveredSamples_append_pending P events J
    rw [hJ, List.append_nil] at h
    exact h
  exact ⟨h1, by rw [deliveredSeqs_eq_map, h1]⟩

/-- Witness for C3: a complete three-sample run delivers exactly the
sequence indices 0, 1, 2 in order. -/
theorem c3_exactly_once_witness :
    deliveredSeqs 10 [⟨2, 0⟩, ⟨7, 1⟩, ⟨12, 2⟩] 3 = [0, 1, 2] :=
  ((c3_exactly_once 10 [⟨2, 0⟩, ⟨7, 1⟩, ⟨12, 2⟩] 3 (by decide)).2).trans
    (by decide)

/-- C7 (Idempotent idle tick): when the Sample Queue holds no sample with
arrival timestamp at most tick_time, OnTick performs no consumer call and
leaves the whole dispatcher state — latch included — unchanged.  The
dispatcher is modelled from the spec (section 4.3 step 2). -/
theorem c7_idle_tick (st : DispatcherState) (t : Nat)
    (h : st.queue.filter (fun s => decide (s.ts ≤ t)) = []) :
    onTick st t = (st, []) := by
  unfold onTick drainUpTo
  simp [h]

/-- Witness for C7: a tick at time 3 with only a timestamp-7 sample queued
delivers nothing and changes nothing. -/
theorem c7_idle_tick_witness :
    onTick ⟨[⟨7, 0⟩], true⟩ 3 = (⟨[⟨7, 0⟩], true⟩, []) :=
  c7_idle_tick ⟨[⟨7, 0⟩], true⟩ 3 (by decide)

/-- C8 (Contract-violation failure): the checked dispatcher, modelled from
the spec (sections 6 and 7, absent from the sources), fails with a hard
logic error exactly when OnTick is called with a tick time not strictly
greater than the previous one, or OnSample with a timestamp below the
previous one; under a monotonic caller it never fails and behaves exactly
as the unchecked section 4.3 OnTick. -/
theorem c8_contract_violation (cs : CheckedDispatcher) (t : Nat)
    (s : InputSample) :
    (onTickChecked cs t = Except.error ContractViolation.nonMonotonicTick ↔
      ∃ t0, cs.lastTickTime = some t0 ∧ t ≤ t0) ∧
    (onSampleChecked cs s
        = Except.error ContractViolation.nonMonotonicSample ↔
      ∃ a0, cs.lastSampleTime = some a0 ∧ s.ts < a0) ∧
    ((∀ t0, cs.lastTickTime = some t0 → t0 < t) →
      onTickChecked cs t =
        Except.ok ({ cs with core := (onTick cs.core t).1,
                             lastTickTime := some t },
          (onTick cs.core t).2)) := by
  refine ⟨?_, ?_, ?_⟩
  · unfold onTickChecked
    cases hlt : cs.lastTickTime with
    | none => simp
    | some t0 =>
      by_cases h : t ≤ t0
      · simp [h]
      · simp [h]
  · unfold onSampleChecked
    cases hls : cs.lastSampleTime with
    | none => simp
    | some a0 =>
      by_cases h : s.ts < a0
      · simp [h]
      · simp [h]
  · intro hmono
    unfold onTickChecked
    cases hlt : cs.lastTickTime with
    | none => rfl
    | some t0 =>
      have h := hmono t0 hlt
      have hn : ¬ t ≤ t0 := not_le.mpr h
      simp [hn]

/-- Witness for C8: a repeated tick time is rejected as a non-monotonic
tick contract violation. -/
theorem c8_contract_violation_witness :
    onTickChecked ⟨dispatcher0, some 5, none⟩ 5
      = Except.error ContractViolation.nonMonotonicTick :=
  (c8_contract_violation ⟨dispatcher0, some 5, none⟩ 5 ⟨0, 0⟩).1.mpr
    ⟨5, rfl, le_refl 5⟩

/-- C9 (Recorded counts strictly increase): for every consumer-call trace,
the events_consumed_at_frame vector built by the source test's recording
callbacks is strictly increasing — each pushed element is the
just-incremented consumed counter and in-place updates of the last
element only ever raise it — so for recorded frame indices p < q the
entry at p is strictly below the entry at q. -/
theorem c9_recorded_strictly_increasing (calls : List ConsumerCall) :
    ((recordTrace calls).events_consumed_at_frame).Pairwise (· < ·) ∧
    ∀ (p q : Fin (recordTrace calls).events_consumed_at_frame.length),
      p < q → (recordTrace calls).events_consumed_at_frame.get p
        < (recordTrace calls).events_consumed_at_frame.get q := by
  have h := (recordTrace_inv calls).1
  exact ⟨h, fun p q hpq => List.pairwise_iff_get.mp h p q hpq⟩

/-- Witness for C9: on a concrete trace with two frames the first recorded
count is strictly below the second. -/
theorem c9_recorded_strictly_increasing_witness :
    (recordTrace [ConsumerCall.deliverSample 0, ConsumerCall.beginFrame,
        ConsumerCall.deliverSample 1]).events_consumed_at_frame.get
      ⟨0, by decide⟩
      < (recordTrace [ConsumerCall.deliverSample 0, ConsumerCall.beginFrame,
        ConsumerCall.deliverSample 1]).events_consumed_at_frame.get
      ⟨1, by decide⟩ :=
  (c9_recorded_strictly_increasing
    [ConsumerCall.deliverSample 0, ConsumerCall.beginFrame,
     ConsumerCall.deliverSample 1]).2 ⟨0, by decide⟩ ⟨1, by decide⟩
    (by decide)

/-- C10 (Precondition validation): if the assumption-checking loop of
TestSimulatedInputEvents passes, then every event's random latency (with
its ideal frame index computed by C++ truncating division, which agrees
with the claim's floor whenever delivery time is at least base latency)
lies in the interval from 0 inclusive to frame_time exclusive, every
ideal frame index is below the final continuous_frame_count, and the
ideal indices cover every integer from 0 up to that count — so a
generator whose random latency reaches a full frame or which skips an
ideal frame index fails the assertions instead of being silently
simulated. -/
theorem c10_precondition_checks (base F : Int) (ds : List Int)
    (h : assumptionsOk base F ds = true) :
    (∀ a ∈ ds, 0 ≤ randomLatency base F a ∧ randomLatency base F a < F) ∧
    (∀ a ∈ ds, idealFrameIdx base F a < finalCfc base F 0 ds) ∧
    (∀ c : Int, 0 ≤ c → c < finalCfc base F 0 ds →
      c ∈ ds.map (idealFrameIdx base F)) := by
  obtain ⟨h1, _, h3, h4⟩ := checkLoop_sound base F ds 0 h
  exact ⟨h1, h3, h4⟩

/-- Witness for C10: the double_sampling generator passes the checks and
ideal frame index 0 is indeed realized by one of its events. -/
theorem c10_precondition_checks_witness :
    (0 : Int) ∈ (doubleSamplingEvents.map (fun s => (s.ts : Int))).map
      (idealFrameIdx 2 10) :=
  (c10_precondition_checks 2 10
      (doubleSamplingEvents.map (fun s => (s.ts : Int)))
      (by decide)).2.2 0 (by decide) (by decide)

/-- C4 counterexample: under the spec-modelled drain-all dispatcher the
double_sampling run (40 events, period 10, base latency 2, the source
loop performing exactly 21 ticks) produces 20 frames, not n / 2 + 1 = 21:
both samples of a tick interval are drained at the covering tick, so no
pending packet spills into an extra frame. -/
theorem c4_counterexample :
    framesProduced 10 doubleSamplingEvents 21 = 20 ∧
    framesProduced 10 doubleSamplingEvents 21 ≠ 40 / 2 + 1 ∧
    pendingAfter 10 doubleSamplingEvents 20 ≠ [] ∧
    pendingAfter 10 doubleSamplingEvents 21 = [] := by decide

/-- C4 (amended): the double_sampling run produces exactly n / 2 = 20
frames under the spec-modelled dispatcher, and the cumulative
delivered-count recorded at each frame index i is at least 2 i - 1 (it
equals 2 i + 2); the two pendingAfter conjuncts pin 21 as the exact tick
count of the source driver loop. -/
theorem c4_amended :
    framesProduced 10 doubleSamplingEvents 21 = 40 / 2 ∧
    (∀ i : Nat, i < 20 →
      2 * (i : Int) - 1 ≤
        ((recordTrace (simTrace 10 doubleSamplingEvents 21)
          ).events_consumed_at_frame.getD i 0 : Int)) ∧
    pendingAfter 10 doubleSamplingEvents 20 ≠ [] ∧
    pendingAfter 10 doubleSamplingEvents 21 = [] := by decide

/-- Witness for C4 (amended): the recorded count at frame index 3 meets
the 2 i - 1 bound. -/
theorem c4_amended_witness :
    2 * (3 : Int) - 1 ≤
      ((recordTrace (simTrace 10 doubleSamplingEvents 21)
        ).events_consumed_at_frame.getD 3 0 : Int) :=
  c4_amended.2.1 3 (by decide)

/-- C5 counterexample: under the spec-modelled drain-all dispatcher the
extreme run (40 events, period 10, base latency 5, alternating offsets 1
and 9, the source loop performing exactly 42 ticks) produces 21 frames,
far below the claimed n - 1 = 39: consecutive samples with offsets 9 and
1 land in the same tick interval and are coalesced into one frame. -/
theorem c5_counterexample :
    framesProduced 10 extremeEvents 42 = 21 ∧
    ¬ (40 - 1 ≤ framesProduced 10 extremeEvents 42) ∧
    pendingAfter 10 extremeEvents 41 ≠ [] ∧
    pendingAfter 10 extremeEvents 42 = [] := by decide

/-- C5 (amended): the extreme run produces exactly 21 frames under the
spec-modelled dispatcher — one per tick interval containing at least one
sample; the two pendingAfter conjuncts pin 42 as the exact tick count of
the source driver loop. -/
theorem c5_amended :
    framesProduced 10 extremeEvents 42 = 21 ∧
    pendingAfter 10 extremeEvents 41 ≠ [] ∧
    pendingAfter 10 extremeEvents 42 = [] := by decide

/-- C6 counterexample: under the spec-modelled drain-all dispatcher the
iPhone Xs trace replayed with base latency 6000 (the sweep entry for
0.6 of the period) produces 44 frames, below n - 1 = 46: three pairs of
events fall into shared tick intervals at that shift and are coalesced. -/
theorem c6_counterexample :
    (6000 : Nat) ∈ baseLatencySweep ∧
    framesProduced 10000 (iphoneEvents 6000) (iphoneRunLength 6000) = 44 ∧
    ¬ ((iphoneEvents 6000).length - 1 ≤
        framesProduced 10000 (iphoneEvents 6000) (iphoneRunLength 6000)) ∧
    pendingAfter 10000 (iphoneEvents 6000) (iphoneRunLength 6000 - 1)
      ≠ [] ∧
    pendingAfter 10000 (iphoneEvents 6000) (iphoneRunLength 6000) = [] := by
  decide

/-- C6 (amended): across the 11-entry base-latency sweep the
spec-modelled dispatcher produces frame counts 47, 47, 47, 47, 47, 47,
44, 41, 40, 40, 47 on the iPhone Xs trace — at least 40 everywhere, but
at least n - 1 = 46 only for shifts below 0.6 of the period and for the
near-full-period shift; each run's tick count is pinned by its
pendingAfter conjuncts. -/
theorem c6_amended :
    baseLatencySweep.map
        (fun b => framesProduced 10000 (iphoneEvents b) (iphoneRunLength b))
      = [47, 47, 47, 47, 47, 47, 44, 41, 40, 40, 47] ∧
    (∀ b ∈ baseLatencySweep,
      40 ≤ framesProduced 10000 (iphoneEvents b) (iphoneRunLength b) ∧
      pendingAfter 10000 (iphoneEvents b) (iphoneRunLength b) = [] ∧
      pendingAfter 10000 (iphoneEvents b) (iphoneRunLength b - 1) ≠ []) := by
  decide

/-- Witness for C6 (amended): the base latency 9000 sweep entry still
yields at least 40 frames. -/
theorem c6_amended_witness :
    40 ≤ framesProduced 10000 (iphoneEvents 9000) (iphoneRunLength 9000) :=
  (c6_amended.2 9000 (by decide)).1

end Engine
